import Mathlib

/-!
Verification of the links-to-RSS bot (`src/main.py`).

The Python program is shallowly embedded: the SQLite store becomes an
explicit `DB` value threaded through the operations, `datetime.now()`
becomes an explicit clock `Nat → Nat` indexed by the number of prior
calls inside one handler, the per-URL HTTP fetch becomes an oracle
`String → FetchOutcome`, and UUID generation becomes an explicit
`freshToken` argument.  Fallible SQLite statements return `Except`.
All definitions are computable and mirror `src/main.py` line by line.
-/

namespace LinksBot

/-- Open Graph metadata (dataclass `OGData` in `main.py`). -/
structure OGData where
  title : Option String := none
  description : Option String := none
  image : Option String := none
deriving DecidableEq

/-- Link data with metadata (dataclass `LinkData` in `main.py`).
Timestamps are modelled as `Nat`. -/
structure LinkData where
  url : String
  title : String
  description : String
  date : Nat
  image : Option String := none
  message_id : Option Int := none
deriving DecidableEq

/-- One row of the `links` table (autoincrement id omitted; list order
keeps insertion order). -/
structure LinkRow where
  chat_id : String
  url : String
  title : String
  description : String
  image : Option String
  message_id : Option Int
  date : Nat
deriving DecidableEq

/-- One row of the `groups` table: `chat_id` is the PRIMARY KEY and
`token` carries a UNIQUE constraint. -/
structure GroupRow where
  chat_id : String
  token : String
deriving DecidableEq

/-- The persistent SQLite store: the `groups` table and the `links`
table. -/
structure DB where
  groups : List GroupRow
  links : List LinkRow
deriving DecidableEq

/-! ## URL extractor

The source pattern is
`http[s]?://(?:[a-zA-Z]|[0-9]|[$-_@.&+]|[!*\\(\\),]|(?:%[0-9a-fA-F][0-9a-fA-F]))+`.
Note `[$-_@.&+]` is a character range from `$` (0x24) to `_` (0x5F),
so the union of the alternatives is: `!` (0x21), the range 0x24..0x5F
(which contains digits, uppercase letters and most punctuation) and
lowercase letters 0x61..0x7A; the two-character `%XX` alternative adds
nothing because `%` and all hex digits already lie in the range.
`re.findall` scans left to right and, since the body is one-or-more
repetitions of single-character alternatives with nothing after it,
each match is the maximal run of allowed characters after the scheme
`https://` (preferred, since `[s]?` is greedy) or `http://`. -/
def isUrlChar (c : Char) : Bool :=
  c.toNat == 0x21 || (0x24 ≤ c.toNat && c.toNat ≤ 0x5f) ||
    (0x61 ≤ c.toNat && c.toNat ≤ 0x7a)

/-- The characters of the scheme `https://`. -/
def schemeS : List Char := ['h', 't', 't', 'p', 's', ':', '/', '/']

/-- The characters of the scheme `http://`. -/
def schemeH : List Char := ['h', 't', 't', 'p', ':', '/', '/']

/-- Attempt the regex at the head of `l`: scheme (with greedy optional
`s`) followed by a nonempty maximal run of allowed characters.  On
success returns the matched characters and the unscanned remainder. -/
def matchUrlAt (l : List Char) : Option (List Char × List Char) :=
  if l.take 8 = schemeS then
    if (l.drop 8).takeWhile isUrlChar = [] then none
    else some (schemeS ++ (l.drop 8).takeWhile isUrlChar,
               (l.drop 8).dropWhile isUrlChar)
  else if l.take 7 = schemeH then
    if (l.drop 7).takeWhile isUrlChar = [] then none
    else some (schemeH ++ (l.drop 7).takeWhile isUrlChar,
               (l.drop 7).dropWhile isUrlChar)
  else none

/-- `re.findall` scan: try a match at every position, emit each match
and resume after it.  `fuel` bounds the recursion; every step consumes
at least one character, so `fuel = l.length` is always enough. -/
def findAllUrlsAux : Nat → List Char → List String
  | 0, _ => []
  | _ + 1, [] => []
  | fuel + 1, c :: cs =>
    match matchUrlAt (c :: cs) with
    | some (m, rest) => m.asString :: findAllUrlsAux fuel rest
    | none => findAllUrlsAux fuel cs

/-- `URL_PATTERN.findall(text)` (`main.py` line 259). -/
def extractUrls (s : String) : List String :=
  findAllUrlsAux s.data.length s.data

/-- The same scan, also recording the start position of each match. -/
def findAllUrlsPosAux : Nat → Nat → List Char → List (Nat × String)
  | 0, _, _ => []
  | _ + 1, _, [] => []
  | fuel + 1, off, c :: cs =>
    match matchUrlAt (c :: cs) with
    | some (m, rest) =>
        (off, m.asString) :: findAllUrlsPosAux fuel (off + m.length) rest
    | none => findAllUrlsPosAux fuel (off + 1) cs

/-! ## Link store -/

/-- `INSERT INTO groups (chat_id, token) VALUES (?, ?)`: the insert
fails (IntegrityError) when the PRIMARY KEY on `chat_id` or the UNIQUE
constraint on `token` is violated; otherwise the row is appended. -/
def insertGroup (db : DB) (chat tok : String) : Except Unit DB :=
  if db.groups.any (fun g => g.chat_id == chat) ||
     db.groups.any (fun g => g.token == tok) then .error ()
  else .ok { db with groups := db.groups ++ [⟨chat, tok⟩] }

/-- `get_group_token` (`main.py` lines 112-132): return the stored
token of the group, or create and store a fresh one.  `freshToken`
stands for `str(uuid.uuid4())`. -/
def get_group_token (db : DB) (chat freshToken : String) :
    Except Unit (String × DB) :=
  match db.groups.find? (fun g => g.chat_id == chat) with
  | some g => .ok (g.token, db)
  | none =>
    match insertGroup db chat freshToken with
    | .ok db1 => .ok (freshToken, db1)
    | .error e => .error e

/-- The row written by `save_link` for `chat_id` and a `LinkData`. -/
def linkRowOf (chat : String) (l : LinkData) : LinkRow :=
  ⟨chat, l.url, l.title, l.description, l.image, l.message_id, l.date⟩

/-- `save_link` (`main.py` lines 135-158): insert one row into
`links`.  `PRAGMA foreign_keys=ON` is active, so the insert fails with
an IntegrityError when `chat_id` has no row in `groups`. -/
def save_link (db : DB) (chat : String) (l : LinkData) : Except Unit DB :=
  if db.groups.any (fun g => g.chat_id == chat) then
    .ok { db with links := db.links ++ [linkRowOf chat l] }
  else .error ()

/-- Sort key of `ORDER BY date DESC`. -/
def dateDesc (a b : LinkRow) : Prop := b.date ≤ a.date

instance : DecidableRel dateDesc := fun a b => Nat.decLe b.date a.date

instance : IsTotal LinkRow dateDesc := ⟨fun a b => Nat.le_total b.date a.date⟩

instance : IsTrans LinkRow dateDesc :=
  ⟨fun _ _ _ hab hbc => Nat.le_trans hbc hab⟩

/-- Convert a row back to `LinkData` (the SELECT of `get_links` and
`datetime.fromisoformat` round-trip). -/
def linkDataOf (r : LinkRow) : LinkData :=
  ⟨r.url, r.title, r.description, r.date, r.image, r.message_id⟩

/-- `get_links` (`main.py` lines 161-189):
`SELECT ... WHERE chat_id = ? ORDER BY date DESC LIMIT ?`. -/
def get_links (db : DB) (chat : String) (limit : Nat) : List LinkData :=
  ((((db.links.filter (fun r => r.chat_id == chat)).insertionSort
      dateDesc).take limit).map linkDataOf)

/-- `delete_group_links` (`main.py` lines 192-201):
`DELETE FROM links WHERE chat_id = ? AND message_id = ?`.  A SQL `=`
comparison with an integer never matches a NULL `message_id`. -/
def delete_group_links (db : DB) (chat : String) (mid : Int) : DB :=
  { db with
    links := db.links.filter
      (fun r => !(r.chat_id == chat && r.message_id == some mid)) }

/-! ## Metadata fetcher -/

/-- Abstraction of one HTTP fetch attempt: either any failure (network
error, non-2xx status raised by `raise_for_status`, parse error,
timeout) or a successfully parsed page. -/
structure Page where
  /-- `soup.find("meta", property="og:title")`: outer `Option` is tag
  presence, inner `Option` is the `content` attribute. -/
  ogTitle : Option (Option String)
  /-- `soup.find("title")`: outer `Option` is tag presence, inner
  `Option` is `title_tag.string` (may be `None`). -/
  titleTag : Option (Option String)
  /-- `soup.find("meta", property="og:description")`. -/
  ogDescription : Option (Option String)
  /-- `soup.find("meta", attrs=...name "description")`. -/
  metaDescription : Option (Option String)
  /-- `soup.find("meta", property="og:image")`. -/
  ogImage : Option (Option String)
deriving DecidableEq

/-- Result of one fetch attempt. -/
inductive FetchOutcome where
  | failure
  | success (page : Page)
deriving DecidableEq

/-- Python `str(x)` applied to an optional attribute value:
`str(None)` is the four-character string `"None"`. -/
def strOfContent : Option String → String
  | some s => s
  | none => "None"

/-- Python truthiness of an optional string: `None` and `""` are
falsy. -/
def pyTruthy : Option String → Bool
  | none => false
  | some s => !(s == "")

/-- Title cascade of `fetch_og_tags` (lines 219-227): og:title content
(via `str`), else, when that is falsy, the `<title>` tag whose falsy
`.string` yields `None`. -/
def pageTitle (p : Page) : Option String :=
  let t1 : Option String :=
    match p.ogTitle with
    | some c => some (strOfContent c)
    | none => none
  if pyTruthy t1 then t1
  else
    match p.titleTag with
    | some s =>
      match s with
      | some str => if str = "" then none else some str
      | none => none
    | none => t1

/-- Description cascade of `fetch_og_tags` (lines 230-238). -/
def pageDescription (p : Page) : Option String :=
  let d1 : Option String :=
    match p.ogDescription with
    | some c => some (strOfContent c)
    | none => none
  if pyTruthy d1 then d1
  else
    match p.metaDescription with
    | some c => some (strOfContent c)
    | none => d1

/-- Image lookup of `fetch_og_tags` (lines 241-243). -/
def pageImage (p : Page) : Option String :=
  match p.ogImage with
  | some c => some (strOfContent c)
  | none => none

/-- `fetch_og_tags` (`main.py` lines 204-249): on success extract the
tag cascade; on any exception return an all-empty `OGData()`. -/
def fetch_og_tags : FetchOutcome → OGData
  | .failure => ⟨none, none, none⟩
  | .success p => ⟨pageTitle p, pageDescription p, pageImage p⟩

/-! ## Ingestion pipeline -/

/-- A Telegram message as consumed by `handle_message`: `from_user` is
the sender first name when a sender is attached. -/
structure Msg where
  chat_id : String
  message_id : Int
  from_user : Option String
  text : Option String
  caption : Option String
deriving DecidableEq

/-- A Telegram update carrying either a new or an edited message. -/
structure Update where
  message : Option Msg
  edited_message : Option Msg
deriving DecidableEq

/-- Python `a or b` on an optional string against a string default. -/
def pyStrOr (a : Option String) (b : String) : String :=
  match a with
  | some s => if s = "" then b else s
  | none => b

/-- `message.text or message.caption or ""` (line 258). -/
def resolveText (m : Msg) : String :=
  pyStrOr m.text (pyStrOr m.caption "")

/-- `message.from_user.first_name if message.from_user else "Unknown"`
(line 264). -/
def userNameOf (m : Msg) : String :=
  match m.from_user with
  | some n => n
  | none => "Unknown"

/-- `update.message or update.edited_message` (line 254). -/
def effectiveMessage (u : Update) : Option Msg :=
  match u.message with
  | some m => some m
  | none => u.edited_message

/-- The `LinkData` built in one iteration of the loop of
`handle_message` (lines 269-291): fetch the metadata for `url`, fall
back to the raw URL as title, prefix the attribution string, and stamp
the `i`-th reading of the clock. -/
def ingestRowData (fetch : String → FetchOutcome) (clock : Nat → Nat)
    (user : String) (mid : Int) (i : Nat) (url : String) : LinkData :=
  let og := fetch_og_tags (fetch url)
  let title := match og.title with
    | some t => if t = "" then url else t
    | none => url
  let description := match og.description with
    | some d => if d = "" then "" else d
    | none => ""
  let fullDescription :=
    if description = "" then "Shared by " ++ user
    else "Shared by " ++ user ++ " - " ++ description
  ⟨url, title, fullDescription, clock i, og.image, some mid⟩

/-- The `for url in urls` loop of `handle_message`: fetch, build the
`LinkData`, `save_link`; a store failure aborts the remaining URLs of
this message. -/
def ingestUrls (fetch : String → FetchOutcome) (clock : Nat → Nat)
    (chat : String) (mid : Int) (user : String) :
    List String → Nat → DB → DB
  | [], _, db => db
  | url :: rest, i, db =>
    match save_link db chat (ingestRowData fetch clock user mid i url) with
    | .ok db1 => ingestUrls fetch clock chat mid user rest (i + 1) db1
    | .error _ => db

/-- The rows the loop appends when every `save_link` succeeds. -/
def ingestRows (fetch : String → FetchOutcome) (clock : Nat → Nat)
    (chat : String) (mid : Int) (user : String) :
    List String → Nat → List LinkRow
  | [], _ => []
  | url :: rest, i =>
    linkRowOf chat (ingestRowData fetch clock user mid i url) ::
      ingestRows fetch clock chat mid user rest (i + 1)

/-- `handle_message` (`main.py` lines 252-294): resolve the message,
extract URLs, stop when there are none, delete the previously stored
links of this (chat, message) pair, then ingest each URL in order. -/
def handle_message (db : DB) (fetch : String → FetchOutcome)
    (clock : Nat → Nat) (upd : Update) : DB :=
  match effectiveMessage upd with
  | none => db
  | some msg =>
    let urls := extractUrls (resolveText msg)
    if urls = [] then db
    else
      let db1 := delete_group_links db msg.chat_id msg.message_id
      ingestUrls fetch clock msg.chat_id msg.message_id (userNameOf msg)
        urls 0 db1

/-! ## Feed generator -/

/-- Decimal rendering of a timestamp, standing for the digit string of
`link.date.timestamp()`. -/
def dateStr (n : Nat) : String :=
  (((Nat.digits 10 n).map Nat.digitChar).reverse).asString

/-- The guid `f"{link.url}_{link.date.timestamp()}"` (line 333). -/
def guidOf (url : String) (date : Nat) : String :=
  url ++ "_" ++ dateStr date

/-- One `<item>` element of the generated feed (lines 327-337). -/
structure RssItem where
  title : String
  link : String
  description : String
  pubDate : Nat
  guid : String
  enclosure : Option String
deriving DecidableEq

/-- The generated `<rss><channel>` document (lines 319-339). -/
structure RssDoc where
  title : String
  link : String
  description : String
  lastBuildDate : Nat
  items : List RssItem
deriving DecidableEq

/-- The item rendered for one link. -/
def rssItemOf (l : LinkData) : RssItem :=
  ⟨l.title, l.url, l.description, l.date, guidOf l.url l.date, l.image⟩

/-- `generate_rss` (`main.py` lines 315-339): render the most recent
50 links of the group.  `now` is the render-time clock used for
`lastBuildDate`. -/
def generate_rss (appUrl : String) (now : Nat) (db : DB) (chat : String) :
    RssDoc :=
  { title := "Telegram Group Links",
    link := appUrl ++ "/rss/" ++ chat,
    description := "Links shared in Telegram group",
    lastBuildDate := now,
    items := (get_links db chat 50).map rssItemOf }

/-! ## HTTP feed endpoint -/

/-- The observable HTTP outcome of a `GET /rss` request. -/
structure HttpResponse where
  status : Nat
  mediaType : Option String
  rssBody : Option RssDoc
  detail : Option String
deriving DecidableEq

/-- `rss_feed` (`main.py` lines 352-370).  The handler declares
`token: str = Query(...)`, a required query parameter, so FastAPI
rejects a request missing it with a 422 validation error before the
handler body runs; an unknown token raises `HTTPException(401)`; a
token found in `groups` yields the group feed with media type
`application/rss+xml`. -/
def rss_feed (appUrl : String) (now : Nat) (db : DB)
    (token : Option String) : HttpResponse :=
  match token with
  | none => ⟨422, none, none, some "Field required"⟩
  | some tok =>
    match db.groups.find? (fun g => g.token == tok) with
    | none => ⟨401, none, none, some "Unauthorized: Invalid token"⟩
    | some g =>
      ⟨200, some "application/rss+xml",
        some (generate_rss appUrl now db g.chat_id), none⟩

/-- The `chat_id` PRIMARY KEY invariant of the `groups` table. -/
def ChatUnique (db : DB) : Prop :=
  db.groups.Pairwise (fun a b => a.chat_id ≠ b.chat_id)

/-- The `token` UNIQUE invariant of the `groups` table. -/
def TokenUnique (db : DB) : Prop :=
  db.groups.Pairwise (fun a b => a.token ≠ b.token)

/-- The links currently stored for one (group, origin message) pair:
the rows `delete_group_links` would remove. -/
def msgLinks (db : DB) (chat : String) (mid : Int) : List LinkRow :=
  db.links.filter (fun r => r.chat_id == chat && r.message_id == some mid)

/-! ## Extractor lemmas -/

theorem matchUrlAt_nil : matchUrlAt [] = none := by decide

/-- A successful match splits the scanned characters into the matched
nonempty URL and the remainder. -/
theorem matchUrlAt_spec {l m r : List Char} (h : matchUrlAt l = some (m, r)) :
    l = m ++ r ∧ m ≠ [] := by
  unfold matchUrlAt at h
  split at h
  case isTrue h8 =>
    split at h
    case isTrue => exact absurd h (by simp)
    case isFalse hrun =>
      simp only [Option.some.injEq, Prod.mk.injEq] at h
      obtain ⟨hm, hr⟩ := h
      subst hm; subst hr
      refine ⟨?_, by simp [schemeS]⟩
      conv_lhs => rw [← List.take_append_drop 8 l]
      rw [h8, List.append_assoc, List.takeWhile_append_dropWhile]
  case isFalse h8 =>
    split at h
    case isTrue h7 =>
      split at h
      case isTrue => exact absurd h (by simp)
      case isFalse hrun =>
        simp only [Option.some.injEq, Prod.mk.injEq] at h
        obtain ⟨hm, hr⟩ := h
        subst hm; subst hr
        refine ⟨?_, by simp [schemeH]⟩
        conv_lhs => rw [← List.take_append_drop 7 l]
        rw [h7, List.append_assoc, List.takeWhile_append_dropWhile]
    case isFalse => exact absurd h (by simp)

theorem findAllUrlsAux_cons {fuel : Nat} {c : Char} {cs : List Char} :
    findAllUrlsAux (fuel + 1) (c :: cs) =
      match matchUrlAt (c :: cs) with
      | some (m, rest) => m.asString :: findAllUrlsAux fuel rest
      | none => findAllUrlsAux fuel cs := rfl

theorem findAllUrlsPosAux_cons {fuel off : Nat} {c : Char} {cs : List Char} :
    findAllUrlsPosAux (fuel + 1) off (c :: cs) =
      match matchUrlAt (c :: cs) with
      | some (m, rest) =>
          (off, m.asString) :: findAllUrlsPosAux fuel (off + m.length) rest
      | none => findAllUrlsPosAux fuel (off + 1) cs := rfl

/-- With enough fuel, the scan returns the empty list exactly when no
position of the text admits a match. -/
theorem findAllUrlsAux_eq_nil_iff : ∀ (fuel : Nat) (l : List Char),
    l.length ≤ fuel →
    (findAllUrlsAux fuel l = [] ↔ ∀ i, matchUrlAt (l.drop i) = none)
  | 0, l, hl => by
    have h0 : l = [] := List.length_eq_zero.mp (Nat.le_zero.mp hl)
    subst h0
    simp [findAllUrlsAux, matchUrlAt_nil]
  | _ + 1, [], _ => by
    simp [findAllUrlsAux, matchUrlAt_nil]
  | fuel + 1, c :: cs, hl => by
    have hcs : cs.length ≤ fuel := by
      simpa using Nat.succ_le_succ_iff.mp (by simpa using hl)
    rw [findAllUrlsAux_cons]
    cases hm : matchUrlAt (c :: cs) with
    | some p =>
      constructor
      · intro h; cases h
      · intro h
        have := h 0
        rw [List.drop_zero, hm] at this
        cases this
    | none =>
      rw [findAllUrlsAux_eq_nil_iff fuel cs hcs]
      constructor
      · intro h i
        cases i with
        | zero => rw [List.drop_zero]; exact hm
        | succ i => rw [List.drop_succ_cons]; exact h i
      · intro h i
        have := h (i + 1)
        rwa [List.drop_succ_cons] at this

theorem findAllUrlsPosAux_map_snd : ∀ (fuel off : Nat) (l : List Char),
    (findAllUrlsPosAux fuel off l).map Prod.snd = findAllUrlsAux fuel l
  | 0, _, _ => rfl
  | _ + 1, _, [] => rfl
  | fuel + 1, off, c :: cs => by
    rw [findAllUrlsAux_cons, findAllUrlsPosAux_cons]
    cases hm : matchUrlAt (c :: cs) with
    | some p =>
      obtain ⟨m, rest⟩ := p
      simp [findAllUrlsPosAux_map_snd fuel (off + m.length) rest]
    | none =>
      simp [findAllUrlsPosAux_map_snd fuel (off + 1) cs]

/-- Every recorded position is at least the running offset, and a
genuine match of the recorded URL occurs at that position. -/
theorem findAllUrlsPosAux_spec : ∀ (fuel off : Nat) (l : List Char),
    ∀ p ∈ findAllUrlsPosAux fuel off l,
      off ≤ p.1 ∧ ∃ m rest, matchUrlAt (l.drop (p.1 - off)) = some (m, rest)
        ∧ p.2 = m.asString
  | 0, _, _ => by simp [findAllUrlsPosAux]
  | _ + 1, _, [] => by simp [findAllUrlsPosAux]
  | fuel + 1, off, c :: cs => by
    rw [findAllUrlsPosAux_cons]
    cases hm : matchUrlAt (c :: cs) with
    | some p0 =>
      obtain ⟨m, rest⟩ := p0
      intro p hp
      rcases List.mem_cons.mp hp with h | h
      · subst h
        exact ⟨Nat.le_refl _, m, rest, by simpa using hm, rfl⟩
      · obtain ⟨hoff, m2, rest2, hmat, hval⟩ :=
          findAllUrlsPosAux_spec fuel (off + m.length) rest p h
        refine ⟨Nat.le_trans (Nat.le_add_right _ _) hoff, m2, rest2, ?_, hval⟩
        obtain ⟨hsplit, -⟩ := matchUrlAt_spec hm
        rw [hsplit]
        have harith : p.1 - off = m.length + (p.1 - (off + m.length)) := by
          omega
        rw [harith, List.drop_append]
        exact hmat
    | none =>
      intro p hp
      obtain ⟨hoff, m2, rest2, hmat, hval⟩ :=
        findAllUrlsPosAux_spec fuel (off + 1) cs p hp
      refine ⟨Nat.le_trans (Nat.le_add_right _ _) hoff, m2, rest2, ?_, hval⟩
      have harith : p.1 - off = (p.1 - (off + 1)) + 1 := by omega
      rw [harith, List.drop_succ_cons]
      exact hmat

/-- The recorded match positions are strictly increasing. -/
theorem findAllUrlsPosAux_chain : ∀ (fuel off : Nat) (l : List Char),
    (findAllUrlsPosAux fuel off l).Chain' (fun a b => a.1 < b.1)
  | 0, _, _ => List.chain'_nil
  | _ + 1, _, [] => List.chain'_nil
  | fuel + 1, off, c :: cs => by
    rw [findAllUrlsPosAux_cons]
    cases hm : matchUrlAt (c :: cs) with
    | some p0 =>
      obtain ⟨m, rest⟩ := p0
      rw [List.chain'_cons']
      refine ⟨?_, findAllUrlsPosAux_chain fuel (off + m.length) rest⟩
      intro y hy
      have hmem : y ∈ findAllUrlsPosAux fuel (off + m.length) rest :=
        List.mem_of_mem_head? hy
      obtain ⟨hoff, -⟩ :=
        findAllUrlsPosAux_spec fuel (off + m.length) rest y hmem
      obtain ⟨-, hne⟩ := matchUrlAt_spec hm
      have hpos : 0 < m.length := List.length_pos.mpr hne
      omega
    | none => exact findAllUrlsPosAux_chain fuel (off + 1) cs

/-! ## Pipeline lemmas -/

/-- The ingestion loop appends exactly the rows of `ingestRows` when
the group is registered, and (because the very first `save_link` then
raises) nothing at all when it is not; the `groups` table is never
touched. -/
theorem ingestUrls_eq (fetch : String → FetchOutcome) (clock : Nat → Nat)
    (chat : String) (mid : Int) (user : String) :
    ∀ (urls : List String) (i : Nat) (db : DB),
    ingestUrls fetch clock chat mid user urls i db =
      ⟨db.groups, db.links ++
        (if db.groups.any (fun g => g.chat_id == chat)
         then ingestRows fetch clock chat mid user urls i else [])⟩
  | [], i, db => by
    cases db
    simp [ingestUrls, ingestRows]
  | url :: rest, i, db => by
    rw [ingestUrls]
    unfold save_link
    cases hreg : db.groups.any (fun g => g.chat_id == chat) with
    | true =>
      simp only [hreg, if_true]
      rw [ingestUrls_eq fetch clock chat mid user rest (i + 1)]
      simp [hreg, ingestRows, List.append_assoc]
    | false =>
      cases db
      simp [hreg, ingestRows]

/-- Every row built by the ingestion loop carries the chat identifier
and origin message identifier of the handled message. -/
theorem ingestRows_fields (fetch : String → FetchOutcome) (clock : Nat → Nat)
    (chat : String) (mid : Int) (user : String) :
    ∀ (urls : List String) (i : Nat),
    ∀ r ∈ ingestRows fetch clock chat mid user urls i,
      r.chat_id = chat ∧ r.message_id = some mid
  | [], _ => by simp [ingestRows]
  | url :: rest, i => by
    intro r hr
    rcases List.mem_cons.mp hr with h | h
    · subst h
      exact ⟨rfl, rfl⟩
    · exact ingestRows_fields fetch clock chat mid user rest (i + 1) r h

theorem ingestRows_length (fetch : String → FetchOutcome) (clock : Nat → Nat)
    (chat : String) (mid : Int) (user : String) :
    ∀ (urls : List String) (i : Nat),
    (ingestRows fetch clock chat mid user urls i).length = urls.length
  | [], _ => rfl
  | url :: rest, i => by
    rw [ingestRows]
    simp [ingestRows_length fetch clock chat mid user rest (i + 1)]

/-- `handle_message` never writes to the `groups` table. -/
theorem handle_message_groups (db : DB) (fetch : String → FetchOutcome)
    (clock : Nat → Nat) (upd : Update) :
    (handle_message db fetch clock upd).groups = db.groups := by
  unfold handle_message
  cases effectiveMessage upd with
  | none => rfl
  | some m =>
    by_cases hurls : extractUrls (resolveText m) = []
    · simp [hurls]
    · simp only [hurls, if_false]
      rw [ingestUrls_eq]
      rfl

/-- After handling a message with at least one URL, the stored links
of its (group, message identifier) pair are exactly the rows produced
by this ingestion: nothing stored earlier for that pair survives. -/
theorem handle_message_msgLinks (db : DB) (fetch : String → FetchOutcome)
    (clock : Nat → Nat) (m : Msg) (upd : Update)
    (hupd : effectiveMessage upd = some m)
    (hurls : extractUrls (resolveText m) ≠ []) :
    msgLinks (handle_message db fetch clock upd) m.chat_id m.message_id =
      (if db.groups.any (fun g => g.chat_id == m.chat_id)
       then ingestRows fetch clock m.chat_id m.message_id (userNameOf m)
              (extractUrls (resolveText m)) 0
       else []) := by
  unfold handle_message
  rw [hupd]
  simp only [hurls, if_false]
  rw [ingestUrls_eq]
  have hdgroups : (delete_group_links db m.chat_id m.message_id).groups =
      db.groups := rfl
  rw [msgLinks]
  simp only [hdgroups]
  rw [List.filter_append]
  have hdel : (delete_group_links db m.chat_id m.message_id).links.filter
      (fun r => r.chat_id == m.chat_id && r.message_id == some m.message_id)
      = [] := by
    rw [delete_group_links]
    simp only [List.filter_filter]
    apply List.filter_eq_nil_iff.mpr
    intro r _
    cases h : (r.chat_id == m.chat_id && r.message_id == some m.message_id)
    · simp
    · simp [h]
  rw [hdel, List.nil_append]
  cases hreg : db.groups.any (fun g => g.chat_id == m.chat_id) with
  | true =>
    simp only [if_true]
    apply List.filter_eq_self.mpr
    intro r hr
    obtain ⟨h1, h2⟩ := ingestRows_fields fetch clock m.chat_id m.message_id
      (userNameOf m) (extractUrls (resolveText m)) 0 r hr
    simp [h1, h2]
  | false => simp

/-- Every URL the extractor yields is a nonempty string. -/
theorem findAllUrlsAux_ne_empty : ∀ (fuel : Nat) (l : List Char),
    ∀ u ∈ findAllUrlsAux fuel l, u ≠ ""
  | 0, _ => by simp [findAllUrlsAux]
  | _ + 1, [] => by simp [findAllUrlsAux]
  | fuel + 1, c :: cs => by
    rw [findAllUrlsAux_cons]
    cases hm : matchUrlAt (c :: cs) with
    | some p0 =>
      obtain ⟨m, rest⟩ := p0
      intro u hu
      rcases List.mem_cons.mp hu with h | h
      · subst h
        obtain ⟨-, hne⟩ := matchUrlAt_spec hm
        intro habs
        exact hne (by simpa [List.asString] using congrArg String.data habs)
      · exact findAllUrlsAux_ne_empty fuel rest u h
    | none => exact findAllUrlsAux_ne_empty fuel cs

/-- When every ingested URL is nonempty, every produced row has a
nonempty title (the metadata title or the raw URL). -/
theorem ingestRows_title (fetch : String → FetchOutcome) (clock : Nat → Nat)
    (chat : String) (mid : Int) (user : String) :
    ∀ (urls : List String) (i : Nat), (∀ u ∈ urls, u ≠ "") →
    ∀ r ∈ ingestRows fetch clock chat mid user urls i, r.title ≠ ""
  | [], _ => by simp [ingestRows]
  | url :: rest, i => by
    intro hurls r hr
    rcases List.mem_cons.mp hr with h | h
    · subst h
      show (match (fetch_og_tags (fetch url)).title with
            | some t => if t = "" then url else t
            | none => url) ≠ ""
      cases ht : (fetch_og_tags (fetch url)).title with
      | none => simpa using hurls url (List.mem_cons_self _ _)
      | some t =>
        by_cases he : t = ""
        · simpa [he] using hurls url (List.mem_cons_self _ _)
        · simpa [he] using he
    · exact ingestRows_title fetch clock chat mid user rest (i + 1)
        (fun u hu => hurls u (List.mem_cons_of_mem _ hu)) r h

/-- The row at index `i` of the produced rows comes from the URL at
index `i`, stamped with the `(i0 + i)`-th clock reading. -/
theorem ingestRows_get? (fetch : String → FetchOutcome)
    (clock : Nat → Nat) (chat : String) (mid : Int) (user : String) :
    ∀ (urls : List String) (i0 i : Nat),
    (ingestRows fetch clock chat mid user urls i0).get? i =
      (urls.get? i).map
        (fun url => linkRowOf chat (ingestRowData fetch clock user mid
          (i0 + i) url))
  | [], _, _ => by simp [ingestRows]
  | url :: rest, i0, 0 => by simp [ingestRows]
  | url :: rest, i0, i + 1 => by
    rw [ingestRows]
    simp only [List.get?_cons_succ]
    rw [ingestRows_get? fetch clock chat mid user rest (i0 + 1) i]
    have h : i0 + 1 + i = i0 + (i + 1) := by omega
    rw [h]

/-! ## Claims -/

/-- C1.  Idempotent edit reconciliation: ingesting a second message
event with the same group and message identifier (and at least one
URL) leaves the store holding, for that (group, message) pair, exactly
the links the second ingestion produces — the same rows a single
ingestion of the second event against the original store would
produce — and none from the first ingestion. -/
theorem C1_idempotent_edit (db : DB) (fetch1 fetch2 : String → FetchOutcome)
    (clock1 clock2 : Nat → Nat) (m1 m2 : Msg)
    (hchat : m1.chat_id = m2.chat_id) (hmid : m1.message_id = m2.message_id)
    (hurls : extractUrls (resolveText m2) ≠ []) :
    msgLinks (handle_message (handle_message db fetch1 clock1
        ⟨some m1, none⟩) fetch2 clock2 ⟨some m2, none⟩)
        m2.chat_id m2.message_id =
      msgLinks (handle_message db fetch2 clock2 ⟨some m2, none⟩)
        m2.chat_id m2.message_id := by
  rw [handle_message_msgLinks _ fetch2 clock2 m2 ⟨some m2, none⟩ rfl hurls,
      handle_message_msgLinks db fetch2 clock2 m2 ⟨some m2, none⟩ rfl hurls,
      handle_message_groups]

/-- Witness for C1 at a concrete re-ingestion: message 1 of group "g"
first shares `http://a`, its edit shares `http://b`. -/
theorem C1_idempotent_edit_witness :
    msgLinks (handle_message (handle_message ⟨[⟨"g", "tok"⟩], []⟩
        (fun _ => FetchOutcome.failure) (fun i => i)
        ⟨some ⟨"g", 1, some "Ann", some "http://a", none⟩, none⟩)
        (fun _ => FetchOutcome.failure) (fun i => i)
        ⟨some ⟨"g", 1, some "Ann", some "http://b", none⟩, none⟩) "g" 1 =
      msgLinks (handle_message ⟨[⟨"g", "tok"⟩], []⟩
        (fun _ => FetchOutcome.failure) (fun i => i)
        ⟨some ⟨"g", 1, some "Ann", some "http://b", none⟩, none⟩) "g" 1 :=
  C1_idempotent_edit ⟨[⟨"g", "tok"⟩], []⟩
    (fun _ => FetchOutcome.failure) (fun _ => FetchOutcome.failure)
    (fun i => i) (fun i => i)
    ⟨"g", 1, some "Ann", some "http://a", none⟩
    ⟨"g", 1, some "Ann", some "http://b", none⟩
    rfl rfl (by decide)

/-- C2.  Fetch-failure degradation: a failed fetch yields the all-empty
metadata record instead of raising; ingestion of a message in a
registered group still appends one row per extracted URL (failed ones
included), and the row of a URL whose fetch failed has the raw URL as
title and the attribution string alone as description. -/
theorem C2_fetch_degradation (db : DB) (fetch : String → FetchOutcome)
    (clock : Nat → Nat) (m : Msg)
    (hreg : db.groups.any (fun g => g.chat_id == m.chat_id) = true)
    (hurls : extractUrls (resolveText m) ≠ []) :
    fetch_og_tags .failure = ⟨none, none, none⟩
    ∧ (handle_message db fetch clock ⟨some m, none⟩).links =
        (delete_group_links db m.chat_id m.message_id).links ++
          ingestRows fetch clock m.chat_id m.message_id (userNameOf m)
            (extractUrls (resolveText m)) 0
    ∧ (ingestRows fetch clock m.chat_id m.message_id (userNameOf m)
        (extractUrls (resolveText m)) 0).length
        = (extractUrls (resolveText m)).length
    ∧ ∀ (i : Nat) (url : String),
        (extractUrls (resolveText m)).get? i = some url →
        fetch url = .failure →
        ∃ r, (ingestRows fetch clock m.chat_id m.message_id (userNameOf m)
            (extractUrls (resolveText m)) 0).get? i = some r ∧
          r.title = url ∧ r.description = "Shared by " ++ userNameOf m ∧
          r.url = url ∧ r.message_id = some m.message_id := by
  refine ⟨rfl, ?_, ingestRows_length _ _ _ _ _ _ _, ?_⟩
  · have h1 : handle_message db fetch clock ⟨some m, none⟩ =
        (if extractUrls (resolveText m) = [] then db
         else ingestUrls fetch clock m.chat_id m.message_id (userNameOf m)
           (extractUrls (resolveText m)) 0
           (delete_group_links db m.chat_id m.message_id)) := rfl
    rw [h1, if_neg hurls, ingestUrls_eq]
    show (delete_group_links db m.chat_id m.message_id).links ++ _ = _
    have hdg : (delete_group_links db m.chat_id m.message_id).groups =
        db.groups := rfl
    rw [hdg, hreg]
    simp
  · intro i url hi hfail
    rw [ingestRows_get? fetch clock m.chat_id m.message_id
      (userNameOf m) (extractUrls (resolveText m)) 0 i, hi]
    refine ⟨_, rfl, ?_, ?_, rfl, rfl⟩
    · show (ingestRowData fetch clock (userNameOf m) m.message_id
        (0 + i) url).title = url
      show (match (fetch_og_tags (fetch url)).title with
            | some t => if t = "" then url else t
            | none => url) = url
      rw [hfail]
      rfl
    · show (ingestRowData fetch clock (userNameOf m) m.message_id
        (0 + i) url).description = "Shared by " ++ userNameOf m
      show (if (match (fetch_og_tags (fetch url)).description with
              | some d => if d = "" then "" else d
              | none => "") = ""
            then "Shared by " ++ userNameOf m
            else "Shared by " ++ userNameOf m ++ " - " ++
              (match (fetch_og_tags (fetch url)).description with
               | some d => if d = "" then "" else d
               | none => "")) = "Shared by " ++ userNameOf m
      rw [hfail]
      rfl

/-- Witness for C2: fetching `http://a` fails; its stored row titles
the raw URL and attributes it to Ann. -/
theorem C2_fetch_degradation_witness :
    fetch_og_tags .failure = ⟨none, none, none⟩
    ∧ (handle_message ⟨[⟨"g", "tok"⟩], []⟩ (fun _ => FetchOutcome.failure)
        (fun i => i)
        ⟨some ⟨"g", 1, some "Ann", some "http://a", none⟩, none⟩).links =
        (delete_group_links ⟨[⟨"g", "tok"⟩], []⟩ "g" 1).links ++
          ingestRows (fun _ => FetchOutcome.failure) (fun i => i) "g" 1 "Ann"
            (extractUrls (resolveText ⟨"g", 1, some "Ann", some "http://a",
              none⟩)) 0
    ∧ (ingestRows (fun _ => FetchOutcome.failure) (fun i => i) "g" 1 "Ann"
        (extractUrls (resolveText ⟨"g", 1, some "Ann", some "http://a",
          none⟩)) 0).length
        = (extractUrls (resolveText ⟨"g", 1, some "Ann", some "http://a",
          none⟩)).length
    ∧ ∀ (i : Nat) (url : String),
        (extractUrls (resolveText ⟨"g", 1, some "Ann", some "http://a",
          none⟩)).get? i = some url →
        (fun _ => FetchOutcome.failure : String → FetchOutcome) url
          = .failure →
        ∃ r, (ingestRows (fun _ => FetchOutcome.failure) (fun i => i) "g" 1
            "Ann" (extractUrls (resolveText ⟨"g", 1, some "Ann",
              some "http://a", none⟩)) 0).get? i = some r ∧
          r.title = url ∧ r.description = "Shared by " ++ "Ann" ∧
          r.url = url ∧ r.message_id = some 1 :=
  C2_fetch_degradation ⟨[⟨"g", "tok"⟩], []⟩ (fun _ => FetchOutcome.failure)
    (fun i => i) ⟨"g", 1, some "Ann", some "http://a", none⟩
    (by decide) (by decide)

/-- C8.  Non-empty title invariant: every link row the ingestion
pipeline adds to the store has a nonempty title — for any fetch
outcome the title falls back to the raw URL, which the extractor
guarantees nonempty. -/
theorem C8_nonempty_title (db : DB) (fetch : String → FetchOutcome)
    (clock : Nat → Nat) (upd : Update) :
    ∀ r ∈ (handle_message db fetch clock upd).links,
      r ∈ db.links ∨ r.title ≠ "" := by
  intro r hr
  unfold handle_message at hr
  cases hm : effectiveMessage upd with
  | none => rw [hm] at hr; exact Or.inl hr
  | some m =>
    rw [hm] at hr
    by_cases hurls : extractUrls (resolveText m) = []
    · simp only [hurls, if_true] at hr
      exact Or.inl hr
    · simp only [hurls, if_false] at hr
      rw [ingestUrls_eq] at hr
      rcases List.mem_append.mp hr with h | h
      · exact Or.inl (List.mem_of_mem_filter h)
      · by_cases hreg : ((delete_group_links db m.chat_id
            m.message_id).groups.any (fun g => g.chat_id == m.chat_id))
            = true
        · rw [if_pos hreg] at h
          exact Or.inr (ingestRows_title fetch clock m.chat_id m.message_id
            (userNameOf m) (extractUrls (resolveText m)) 0
            (findAllUrlsAux_ne_empty _ _) r h)
        · rw [if_neg hreg] at h
          exact absurd h (List.not_mem_nil _)

/-- Witness for C8 at a concrete ingestion with a failing fetch. -/
theorem C8_nonempty_title_witness :
    (⟨"g", "http://a", "http://a", "Shared by Ann", none, some 1, 0⟩ :
      LinkRow) ∈ (⟨[⟨"g", "tok"⟩], []⟩ : DB).links ∨
    (⟨"g", "http://a", "http://a", "Shared by Ann", none, some 1, 0⟩ :
      LinkRow).title ≠ "" :=
  C8_nonempty_title ⟨[⟨"g", "tok"⟩], []⟩ (fun _ => FetchOutcome.failure)
    (fun _ => 0) ⟨some ⟨"g", 1, some "Ann", some "http://a", none⟩, none⟩
    ⟨"g", "http://a", "http://a", "Shared by Ann", none, some 1, 0⟩
    (by decide)

/-- C9.  No-URL no-op: an update with no message at all, or whose
resolved text (body, else caption, else empty) contains no URL, leaves
the store exactly as it was — no purge, no insert. -/
theorem C9_no_url_noop (db : DB) (fetch : String → FetchOutcome)
    (clock : Nat → Nat) (upd : Update)
    (h : ∀ m, effectiveMessage upd = some m →
      extractUrls (resolveText m) = []) :
    handle_message db fetch clock upd = db := by
  unfold handle_message
  cases hm : effectiveMessage upd with
  | none => rfl
  | some m => simp [h m hm]

/-- Witness for C9 at a concrete URL-free message. -/
theorem C9_no_url_noop_witness :
    handle_message ⟨[⟨"g", "tok"⟩], [⟨"g", "http://old", "t", "d", none,
        some 9, 3⟩]⟩
      (fun _ => FetchOutcome.failure) (fun _ => 0)
      ⟨some ⟨"g", 9, some "Ann", some "hello there", none⟩, none⟩ =
    ⟨[⟨"g", "tok"⟩], [⟨"g", "http://old", "t", "d", none, some 9, 3⟩]⟩ :=
  C9_no_url_noop _ _ _ _ (fun m hm => by
    have h2 : some (⟨"g", 9, some "Ann", some "hello there", none⟩ : Msg)
        = some m := hm
    injection h2 with h3
    rw [← h3]
    decide)

/-- C3.  URL extraction: the extractor is a pure function of the text;
it returns the empty sequence exactly when no position of the text
matches the URL grammar; its output is realised by a strictly
left-to-right increasing sequence of genuine match positions (so order
of occurrence is preserved); and duplicates are yielded separately, as
on the concrete text repeating `http://a`. -/
theorem C3_url_extraction (s : String) :
    (extractUrls s = [] ↔ ∀ i, matchUrlAt (s.data.drop i) = none)
    ∧ (∃ ps : List (Nat × String),
        ps.map Prod.snd = extractUrls s
        ∧ ps.Chain' (fun a b => a.1 < b.1)
        ∧ ∀ p ∈ ps, ∃ m rest,
            matchUrlAt (s.data.drop p.1) = some (m, rest)
            ∧ p.2 = m.asString)
    ∧ extractUrls "x http://a http://a" = ["http://a", "http://a"] := by
  refine ⟨findAllUrlsAux_eq_nil_iff s.data.length s.data (Nat.le_refl _),
    ?_, by decide⟩
  refine ⟨findAllUrlsPosAux s.data.length 0 s.data,
    findAllUrlsPosAux_map_snd _ _ _, findAllUrlsPosAux_chain _ _ _, ?_⟩
  intro p hp
  obtain ⟨-, m, rest, hmat, hval⟩ :=
    findAllUrlsPosAux_spec s.data.length 0 s.data p hp
  exact ⟨m, rest, by simpa using hmat, hval⟩

/-- Witness for C3: the duplicate-URL text yields both occurrences in
order. -/
theorem C3_url_extraction_witness :
    extractUrls "x http://a http://a" = ["http://a", "http://a"] :=
  (C3_url_extraction "x http://a http://a").2.2

/-- A token-unique group table contains a row at most once per token
value. -/
theorem row_eq_of_token_eq {l : List GroupRow}
    (hp : l.Pairwise (fun a b => a.token ≠ b.token)) :
    ∀ {a b : GroupRow}, a ∈ l → b ∈ l → a.token = b.token → a = b := by
  induction l with
  | nil => intro a b ha _ _; cases ha
  | cons x xs ih =>
    intro a b ha hb ht
    rcases List.mem_cons.mp ha with h1 | h1
    · rcases List.mem_cons.mp hb with h2 | h2
      · rw [h1, h2]
      · subst h1
        exact absurd ht ((List.pairwise_cons.mp hp).1 b h2)
    · rcases List.mem_cons.mp hb with h2 | h2
      · subst h2
        exact absurd ht.symm ((List.pairwise_cons.mp hp).1 a h1)
      · exact ih (List.pairwise_cons.mp hp).2 h1 h2 ht

/-- Case analysis of a successful `get_group_token` call: either the
group already existed (nothing is created), or a fresh row was
appended after both constraint checks passed. -/
theorem get_group_token_cases {db : DB} {chat fresh t : String} {db1 : DB}
    (h : get_group_token db chat fresh = .ok (t, db1)) :
    (db.groups.find? (fun g => g.chat_id == chat) = some ⟨chat, t⟩
      ∧ db1 = db)
    ∨ (db.groups.find? (fun g => g.chat_id == chat) = none ∧ t = fresh
      ∧ db.groups.any (fun g => g.chat_id == chat) = false
      ∧ db.groups.any (fun g => g.token == fresh) = false
      ∧ db1 = ⟨db.groups ++ [⟨chat, fresh⟩], db.links⟩) := by
  unfold get_group_token at h
  cases hf : db.groups.find? (fun g => g.chat_id == chat) with
  | some g =>
    rw [hf] at h
    simp only [Except.ok.injEq, Prod.mk.injEq] at h
    obtain ⟨ht, hdb⟩ := h
    left
    have hg2 : g.chat_id = chat := by simpa using List.find?_some hf
    refine ⟨?_, hdb.symm⟩
    have hrow : (⟨chat, t⟩ : GroupRow) = g := by
      cases g
      exact congrArg₂ GroupRow.mk hg2.symm ht.symm
    rw [hrow]
  | none =>
    rw [hf] at h
    unfold insertGroup at h
    by_cases hc : (db.groups.any (fun g => g.chat_id == chat) ||
        db.groups.any (fun g => g.token == fresh)) = true
    · rw [if_pos hc] at h
      cases h
    · rw [if_neg hc] at h
      simp only [Except.ok.injEq, Prod.mk.injEq] at h
      obtain ⟨ht, hdb⟩ := h
      right
      simp only [Bool.or_eq_true, not_or, Bool.not_eq_true] at hc
      exact ⟨rfl, ht.symm, hc.1, hc.2, hdb.symm⟩

/-- A successful `get_group_token` keeps every old group row and makes
the chat own the returned token. -/
theorem get_group_token_mem {db : DB} {chat fresh t : String} {db1 : DB}
    (h : get_group_token db chat fresh = .ok (t, db1)) :
    (∀ g ∈ db.groups, g ∈ db1.groups) ∧
      (⟨chat, t⟩ : GroupRow) ∈ db1.groups := by
  rcases get_group_token_cases h with ⟨hf, hdb⟩ | ⟨-, ht, -, -, hdb⟩
  · subst hdb
    exact ⟨fun g hg => hg, List.mem_of_find?_eq_some hf⟩
  · subst hdb
    subst ht
    exact ⟨fun g hg => List.mem_append_left _ hg,
      List.mem_append_right _ (List.mem_singleton.mpr rfl)⟩

/-- A successful `get_group_token` preserves both table constraints:
the stored mapping stays a bijection. -/
theorem get_group_token_unique {db : DB} {chat fresh t : String} {db1 : DB}
    (hcu : ChatUnique db) (htu : TokenUnique db)
    (h : get_group_token db chat fresh = .ok (t, db1)) :
    ChatUnique db1 ∧ TokenUnique db1 := by
  rcases get_group_token_cases h with ⟨-, hdb⟩ | ⟨-, -, hc, htk, hdb⟩
  · subst hdb; exact ⟨hcu, htu⟩
  · subst hdb
    constructor
    · show (db.groups ++ [(⟨chat, fresh⟩ : GroupRow)]).Pairwise
        (fun a b => a.chat_id ≠ b.chat_id)
      rw [List.pairwise_append]
      refine ⟨hcu, List.pairwise_singleton _ _, ?_⟩
      intro a ha b hb
      rw [List.mem_singleton.mp hb]
      intro habs
      have := List.any_eq_false.mp hc a ha
      simp [habs] at this
    · show (db.groups ++ [(⟨chat, fresh⟩ : GroupRow)]).Pairwise
        (fun a b => a.token ≠ b.token)
      rw [List.pairwise_append]
      refine ⟨htu, List.pairwise_singleton _ _, ?_⟩
      intro a ha b hb
      rw [List.mem_singleton.mp hb]
      intro habs
      have := List.any_eq_false.mp htk a ha
      simp [habs] at this

/-- C4.  Token bijection: on a store satisfying the two table
constraints, a second `get_group_token` call for the same group
returns the same token and changes nothing; the constraints are
preserved; and the token returned for a different group by a
subsequent call is distinct. -/
theorem C4_token_bijection (db : DB) (chat chat2 fresh fresh2 t t2 : String)
    (db1 db2 : DB) (hcu : ChatUnique db) (htu : TokenUnique db)
    (h1 : get_group_token db chat fresh = .ok (t, db1)) :
    get_group_token db1 chat fresh2 = .ok (t, db1)
    ∧ ChatUnique db1 ∧ TokenUnique db1
    ∧ (chat2 ≠ chat →
        get_group_token db1 chat2 fresh2 = .ok (t2, db2) → t2 ≠ t) := by
  obtain ⟨hcu1, htu1⟩ := get_group_token_unique hcu htu h1
  have hfind : db1.groups.find? (fun g => g.chat_id == chat)
      = some ⟨chat, t⟩ := by
    rcases get_group_token_cases h1 with ⟨hf, hdb⟩ | ⟨hf, ht, -, -, hdb⟩
    · subst hdb; exact hf
    · subst hdb
      rw [ht]
      show (db.groups ++ [(⟨chat, fresh⟩ : GroupRow)]).find?
        (fun g => g.chat_id == chat) = some ⟨chat, fresh⟩
      rw [List.find?_append, hf]
      simp
  refine ⟨?_, hcu1, htu1, ?_⟩
  · unfold get_group_token
    rw [hfind]
  · intro hne h2 habs
    obtain ⟨hkeep, hmem2⟩ := get_group_token_mem h2
    have hmem1 : (⟨chat, t⟩ : GroupRow) ∈ db2.groups :=
      hkeep _ (List.mem_of_find?_eq_some hfind)
    obtain ⟨-, htu2⟩ := get_group_token_unique hcu1 htu1 h2
    have heq : (⟨chat2, t2⟩ : GroupRow) = ⟨chat, t⟩ :=
      row_eq_of_token_eq htu2 hmem2 hmem1 habs
    exact hne (congrArg GroupRow.chat_id heq)

/-- Witness for C4 at two concrete calls on the empty store. -/
theorem C4_token_bijection_witness :
    get_group_token ⟨[⟨"g1", "ta"⟩], []⟩ "g1" "tb"
      = .ok ("ta", ⟨[⟨"g1", "ta"⟩], []⟩)
    ∧ ChatUnique ⟨[⟨"g1", "ta"⟩], []⟩ ∧ TokenUnique ⟨[⟨"g1", "ta"⟩], []⟩
    ∧ ("g2" ≠ "g1" →
        get_group_token ⟨[⟨"g1", "ta"⟩], []⟩ "g2" "tb"
          = .ok ("tb", ⟨[⟨"g1", "ta"⟩, ⟨"g2", "tb"⟩], []⟩) → "tb" ≠ "ta") :=
  C4_token_bijection ⟨[], []⟩ "g1" "g2" "ta" "tb" "ta" "tb"
    ⟨[⟨"g1", "ta"⟩], []⟩ ⟨[⟨"g1", "ta"⟩, ⟨"g2", "tb"⟩], []⟩
    (List.Pairwise.nil) (List.Pairwise.nil) rfl

/-- C5.  Feed window: the rendered feed carries one entry per stored
link of the group up to 50; the rendered rows are a permutation-part
of the group rows holding exactly the `min(count, 50)` most recent by
timestamp, ordered descending, and every non-rendered row of the group
is no newer than every rendered one. -/
theorem C5_feed_window (appUrl : String) (now : Nat) (db : DB)
    (chat : String) :
    ∃ rend rest : List LinkRow,
      (db.links.filter (fun r => r.chat_id == chat)).Perm (rend ++ rest)
      ∧ (generate_rss appUrl now db chat).items =
          rend.map (fun r => rssItemOf (linkDataOf r))
      ∧ rend.length =
          min (db.links.filter (fun r => r.chat_id == chat)).length 50
      ∧ rend.Pairwise (fun a b => b.date ≤ a.date)
      ∧ ∀ a ∈ rend, ∀ b ∈ rest, b.date ≤ a.date := by
  have hperm := List.perm_insertionSort dateDesc
    (db.links.filter (fun r => r.chat_id == chat))
  have hsorted := List.sorted_insertionSort dateDesc
    (db.links.filter (fun r => r.chat_id == chat))
  refine ⟨((db.links.filter (fun r => r.chat_id == chat)).insertionSort
      dateDesc).take 50,
    ((db.links.filter (fun r => r.chat_id == chat)).insertionSort
      dateDesc).drop 50, ?_, ?_, ?_, ?_, ?_⟩
  · rw [List.take_append_drop]
    exact hperm.symm
  · show (get_links db chat 50).map rssItemOf = _
    rw [get_links, List.map_map]
    rfl
  · rw [List.length_take, List.length_insertionSort]
    exact Nat.min_comm _ _
  · exact List.Pairwise.sublist (List.take_sublist _ _) hsorted
  · intro a ha b hb
    have hp2 : (((db.links.filter (fun r => r.chat_id == chat)).insertionSort
        dateDesc).take 50 ++ ((db.links.filter
          (fun r => r.chat_id == chat)).insertionSort
            dateDesc).drop 50).Pairwise dateDesc := by
      rw [List.take_append_drop]
      exact hsorted
    exact (List.pairwise_append.mp hp2).2.2 a ha b hb

/-- C10.  Save/read round-trip: a link appended by a successful
`save_link` whose timestamp places it inside the limit window (at most
`limit` stored rows of the group are at least as recent) is returned
by `get_links` with all its fields intact, and the returned sequence
is ordered descending by timestamp. -/
theorem C10_save_read_roundtrip (db : DB) (chat : String) (l : LinkData)
    (limit : Nat) (db2 : DB)
    (hsave : save_link db chat l = .ok db2)
    (hwin : (db2.links.filter (fun r => r.chat_id == chat)).countP
        (fun r => decide (l.date ≤ r.date)) ≤ limit) :
    l ∈ get_links db2 chat limit
    ∧ (get_links db2 chat limit).Pairwise
        (fun a b => b.date ≤ a.date) := by
  have hrowF : linkRowOf chat l ∈
      db2.links.filter (fun r => r.chat_id == chat) := by
    unfold save_link at hsave
    by_cases hreg : (db.groups.any (fun g => g.chat_id == chat)) = true
    · rw [if_pos hreg] at hsave
      simp only [Except.ok.injEq] at hsave
      rw [← hsave]
      refine List.mem_filter.mpr ⟨List.mem_append_right _ ?_,
        by simp [linkRowOf]⟩
      exact List.mem_singleton.mpr rfl
    · rw [if_neg hreg] at hsave
      cases hsave
  have hsorted := List.sorted_insertionSort dateDesc
    (db2.links.filter (fun r => r.chat_id == chat))
  have hperm := List.perm_insertionSort dateDesc
    (db2.links.filter (fun r => r.chat_id == chat))
  have hrowS : linkRowOf chat l ∈
      (db2.links.filter (fun r => r.chat_id == chat)).insertionSort
        dateDesc := hperm.mem_iff.mpr hrowF
  obtain ⟨k, hk, hSk⟩ := List.getElem_of_mem hrowS
  have hpred : ∀ i (hi : i <
      ((db2.links.filter (fun r => r.chat_id == chat)).insertionSort
        dateDesc).length), i ≤ k →
      l.date ≤ (((db2.links.filter
        (fun r => r.chat_id == chat)).insertionSort dateDesc)[i]).date := by
    intro i hi hik
    rcases Nat.lt_or_ge i k with hlt | hge
    · have := List.pairwise_iff_getElem.mp hsorted i k hi hk hlt
      rw [hSk] at this
      exact this
    · have hik2 : i = k := Nat.le_antisymm hik hge
      subst hik2
      rw [hSk]
      exact Nat.le_refl l.date
  have hcount : k + 1 ≤
      ((db2.links.filter (fun r => r.chat_id == chat)).insertionSort
        dateDesc).countP (fun r => decide (l.date ≤ r.date)) := by
    have htake : (((db2.links.filter
        (fun r => r.chat_id == chat)).insertionSort dateDesc).take
          (k + 1)).countP (fun r => decide (l.date ≤ r.date)) = k + 1 := by
      rw [List.countP_eq_length.mpr, List.length_take,
        Nat.min_eq_left (Nat.succ_le_of_lt hk)]
      intro a ha
      obtain ⟨i, hi, hia⟩ := List.getElem_of_mem ha
      have hi2 := hi
      rw [List.length_take] at hi2
      have hilt : i < k + 1 := Nat.lt_of_lt_of_le hi2 (Nat.min_le_left _ _)
      rw [List.getElem_take] at hia
      subst hia
      exact decide_eq_true (hpred i _ (Nat.lt_succ_iff.mp hilt))
    calc k + 1 = _ := htake.symm
      _ ≤ _ := List.Sublist.countP_le _ (List.take_sublist _ _)
  have hklim : k < limit := by
    have := hperm.countP_eq (fun r => decide (l.date ≤ r.date))
    omega
  have hmemtake : linkRowOf chat l ∈
      ((db2.links.filter (fun r => r.chat_id == chat)).insertionSort
        dateDesc).take limit := by
    have hlen : k < (((db2.links.filter
        (fun r => r.chat_id == chat)).insertionSort dateDesc).take
          limit).length := by
      rw [List.length_take]
      exact lt_min hklim hk
    have := List.getElem_take ((db2.links.filter
      (fun r => r.chat_id == chat)).insertionSort dateDesc)
      (i := k) (h := hlen)
    rw [hSk] at this
    rw [← this]
    exact List.getElem_mem hlen
  constructor
  · show l ∈ (((db2.links.filter (fun r => r.chat_id == chat)).insertionSort
      dateDesc).take limit).map linkDataOf
    have : linkDataOf (linkRowOf chat l) = l := rfl
    rw [← this]
    exact List.mem_map_of_mem linkDataOf hmemtake
  · show ((((db2.links.filter (fun r => r.chat_id == chat)).insertionSort
      dateDesc).take limit).map linkDataOf).Pairwise
        (fun a b => b.date ≤ a.date)
    rw [List.pairwise_map]
    exact List.Pairwise.sublist (List.take_sublist _ _) hsorted

/-- Witness for C10 at a concrete save followed by a read. -/
theorem C10_save_read_roundtrip_witness :
    (⟨"http://a", "T", "D", 5, none, some 1⟩ : LinkData) ∈
      get_links ⟨[⟨"g", "tok"⟩], [⟨"g", "http://a", "T", "D", none,
        some 1, 5⟩]⟩ "g" 50
    ∧ (get_links ⟨[⟨"g", "tok"⟩], [⟨"g", "http://a", "T", "D", none,
        some 1, 5⟩]⟩ "g" 50).Pairwise (fun a b => b.date ≤ a.date) :=
  C10_save_read_roundtrip ⟨[⟨"g", "tok"⟩], []⟩ "g"
    ⟨"http://a", "T", "D", 5, none, some 1⟩ 50
    ⟨[⟨"g", "tok"⟩], [⟨"g", "http://a", "T", "D", none, some 1, 5⟩]⟩
    rfl (by decide)


/-- Witness for C5 at a concrete store holding two links of the
group. -/
theorem C5_feed_window_witness :
    ∃ rend rest : List LinkRow,
      ((⟨[⟨"g", "tok"⟩], [⟨"g", "http://a", "T", "D", none, some 1, 5⟩,
        ⟨"g", "http://b", "T2", "D2", none, some 2, 6⟩]⟩ :
          DB).links.filter (fun r => r.chat_id == "g")).Perm (rend ++ rest)
      ∧ (generate_rss "u" 0 ⟨[⟨"g", "tok"⟩],
          [⟨"g", "http://a", "T", "D", none, some 1, 5⟩,
           ⟨"g", "http://b", "T2", "D2", none, some 2, 6⟩]⟩ "g").items =
          rend.map (fun r => rssItemOf (linkDataOf r))
      ∧ rend.length = min ((⟨[⟨"g", "tok"⟩],
          [⟨"g", "http://a", "T", "D", none, some 1, 5⟩,
           ⟨"g", "http://b", "T2", "D2", none, some 2, 6⟩]⟩ :
            DB).links.filter (fun r => r.chat_id == "g")).length 50
      ∧ rend.Pairwise (fun a b => b.date ≤ a.date)
      ∧ ∀ a ∈ rend, ∀ b ∈ rest, b.date ≤ a.date :=
  C5_feed_window "u" 0 ⟨[⟨"g", "tok"⟩],
    [⟨"g", "http://a", "T", "D", none, some 1, 5⟩,
     ⟨"g", "http://b", "T2", "D2", none, some 2, 6⟩]⟩ "g"

/-! ## Guid lemmas -/

theorem dateStr_no_underscore (n : Nat) : ∀ c ∈ (dateStr n).data, c ≠ '_' := by
  intro c hc
  rw [dateStr] at hc
  have hd : ((((Nat.digits 10 n).map Nat.digitChar).reverse).asString).data
      = (((Nat.digits 10 n).map Nat.digitChar).reverse) := rfl
  rw [hd, List.mem_reverse] at hc
  obtain ⟨d, hdm, hdc⟩ := List.mem_map.mp hc
  have hlt : d < 10 := Nat.digits_lt_base (by norm_num) hdm
  subst hdc
  interval_cases d <;> decide

theorem digitChar_inj_lt {a b : Nat} (ha : a < 10) (hb : b < 10)
    (h : Nat.digitChar a = Nat.digitChar b) : a = b := by
  interval_cases a <;> interval_cases b <;> revert h <;> decide

theorem map_digitChar_inj : ∀ (l1 l2 : List Nat), (∀ d ∈ l1, d < 10) →
    (∀ d ∈ l2, d < 10) →
    l1.map Nat.digitChar = l2.map Nat.digitChar → l1 = l2
  | [], [], _, _, _ => rfl
  | [], b :: l2, _, _, h => by cases h
  | a :: l1, [], _, _, h => by cases h
  | a :: l1, b :: l2, h1, h2, h => by
    simp only [List.map_cons, List.cons.injEq] at h
    obtain ⟨hab, hrest⟩ := h
    have hd := digitChar_inj_lt (h1 a (List.mem_cons_self _ _))
      (h2 b (List.mem_cons_self _ _)) hab
    have ht := map_digitChar_inj l1 l2
      (fun d hd2 => h1 d (List.mem_cons_of_mem _ hd2))
      (fun d hd2 => h2 d (List.mem_cons_of_mem _ hd2)) hrest
    rw [hd, ht]

/-- The decimal timestamp rendering is injective. -/
theorem dateStr_inj {n1 n2 : Nat} (h : dateStr n1 = dateStr n2) :
    n1 = n2 := by
  have hdata := congrArg String.data h
  have e1 : (dateStr n1).data = ((Nat.digits 10 n1).map
      Nat.digitChar).reverse := rfl
  have e2 : (dateStr n2).data = ((Nat.digits 10 n2).map
      Nat.digitChar).reverse := rfl
  rw [e1, e2] at hdata
  have h2 := List.reverse_injective hdata
  have h3 := map_digitChar_inj _ _
    (fun d hd => Nat.digits_lt_base (by norm_num) hd)
    (fun d hd => Nat.digits_lt_base (by norm_num) hd) h2
  calc n1 = Nat.ofDigits 10 (Nat.digits 10 n1) :=
        (Nat.ofDigits_digits 10 n1).symm
    _ = Nat.ofDigits 10 (Nat.digits 10 n2) := by rw [h3]
    _ = n2 := Nat.ofDigits_digits 10 n2

/-- Splitting at an underscore separator is unambiguous when the
suffixes are underscore-free. -/
theorem append_underscore_inj : ∀ (xs ys a b : List Char),
    (∀ c ∈ a, c ≠ '_') → (∀ c ∈ b, c ≠ '_') →
    xs ++ '_' :: a = ys ++ '_' :: b → xs = ys ∧ a = b
  | [], [], a, b, _, _, h => by
    simp only [List.nil_append, List.cons.injEq] at h
    exact ⟨rfl, h.2⟩
  | [], y :: ys, a, b, ha, _, h => by
    simp only [List.nil_append, List.cons_append, List.cons.injEq] at h
    obtain ⟨-, hrest⟩ := h
    exact absurd rfl (ha '_'
      (hrest ▸ List.mem_append_right _ (List.mem_cons_self _ _)))
  | x :: xs, [], a, b, _, hb, h => by
    simp only [List.nil_append, List.cons_append, List.cons.injEq] at h
    obtain ⟨-, hrest⟩ := h
    exact absurd rfl (hb '_'
      (hrest.symm ▸ List.mem_append_right _ (List.mem_cons_self _ _)))
  | x :: xs, y :: ys, a, b, ha, hb, h => by
    simp only [List.cons_append, List.cons.injEq] at h
    obtain ⟨hxy, hrest⟩ := h
    obtain ⟨h1, h2⟩ := append_underscore_inj xs ys a b ha hb hrest
    exact ⟨by rw [hxy, h1], h2⟩

/-- The guid string determines the URL and the timestamp. -/
theorem guidOf_inj {u1 u2 : String} {d1 d2 : Nat}
    (h : guidOf u1 d1 = guidOf u2 d2) : u1 = u2 ∧ d1 = d2 := by
  have hdata := congrArg String.data h
  rw [guidOf, guidOf, String.data_append, String.data_append] at hdata
  have h1 : u1.data ++ '_' :: (dateStr d1).data =
      u2.data ++ '_' :: (dateStr d2).data := by
    simpa [List.append_assoc] using hdata
  obtain ⟨hu, hd⟩ := append_underscore_inj _ _ _ _
    (dateStr_no_underscore d1) (dateStr_no_underscore d2) h1
  exact ⟨congrArg String.mk hu, dateStr_inj (congrArg String.mk hd)⟩

/-- Every rendered item of a feed comes from a stored row of the
requested group. -/
theorem generate_rss_items_from (appUrl : String) (now : Nat) (db : DB)
    (chat : String) :
    ∀ item ∈ (generate_rss appUrl now db chat).items,
      ∃ r ∈ db.links, r.chat_id = chat
        ∧ item = rssItemOf (linkDataOf r) := by
  intro item hitem
  obtain ⟨ld, hld, hitem2⟩ := List.mem_map.mp hitem
  obtain ⟨r, hr, hld2⟩ := List.mem_map.mp hld
  have hr2 : r ∈ (db.links.filter
      (fun x => x.chat_id == chat)).insertionSort dateDesc :=
    List.mem_of_mem_take hr
  have hr3 := (List.perm_insertionSort dateDesc _).subset hr2
  obtain ⟨hmem, hbeq⟩ := List.mem_filter.mp hr3
  exact ⟨r, hmem, by simpa using hbeq, by rw [← hitem2, ← hld2]⟩

theorem rss_feed_some (appUrl : String) (now : Nat) (db : DB)
    (tok : String) :
    rss_feed appUrl now db (some tok) =
      match db.groups.find? (fun g => g.token == tok) with
      | none => ⟨401, none, none, some "Unauthorized: Invalid token"⟩
      | some g =>
        ⟨200, some "application/rss+xml",
          some (generate_rss appUrl now db g.chat_id), none⟩ := rfl

/-- C6 (amended).  Feed authentication: a token equal to some stored
group token yields a 200 response of media type `application/rss+xml`
whose body holds only that group's links; a token matching no group
yields 401 with an error body; a request missing the token parameter
entirely is rejected by FastAPI parameter validation with status 422,
not 401. -/
theorem C6_feed_auth (appUrl : String) (now : Nat) (db : DB)
    (tok : String) :
    ((∃ g ∈ db.groups, g.token = tok) →
      ∃ g, db.groups.find? (fun x => x.token == tok) = some g
        ∧ g.token = tok
        ∧ rss_feed appUrl now db (some tok) =
            ⟨200, some "application/rss+xml",
              some (generate_rss appUrl now db g.chat_id), none⟩
        ∧ ∀ item ∈ (generate_rss appUrl now db g.chat_id).items,
            ∃ r ∈ db.links, r.chat_id = g.chat_id
              ∧ item = rssItemOf (linkDataOf r))
    ∧ ((∀ g ∈ db.groups, g.token ≠ tok) →
        rss_feed appUrl now db (some tok) =
          ⟨401, none, none, some "Unauthorized: Invalid token"⟩)
    ∧ rss_feed appUrl now db none =
        ⟨422, none, none, some "Field required"⟩ := by
  refine ⟨?_, ?_, rfl⟩
  · intro hex
    have hsome : (db.groups.find? (fun x => x.token == tok)).isSome = true := by
      rw [List.find?_isSome]
      obtain ⟨g, hg, ht⟩ := hex
      exact ⟨g, hg, by simp [ht]⟩
    obtain ⟨g, hfind⟩ := Option.isSome_iff_exists.mp hsome
    refine ⟨g, hfind, by simpa using List.find?_some hfind, ?_,
      generate_rss_items_from appUrl now db g.chat_id⟩
    rw [rss_feed_some, hfind]
  · intro hall
    have hnone : db.groups.find? (fun x => x.token == tok) = none := by
      rw [List.find?_eq_none]
      intro g hg
      simp [hall g hg]
    rw [rss_feed_some, hnone]

/-- Witness for C6 at a concrete store: a valid token is served the
feed, an unknown token is rejected with 401, a missing token with
422. -/
theorem C6_feed_auth_witness :
    (rss_feed "u" 0 ⟨[⟨"g1", "tok1"⟩], []⟩ (some "tok1")).status = 200
    ∧ (rss_feed "u" 0 ⟨[⟨"g1", "tok1"⟩], []⟩ (some "bad")).status = 401
    ∧ (rss_feed "u" 0 ⟨[⟨"g1", "tok1"⟩], []⟩ none).status = 422 := by
  obtain ⟨g, hfind, htok, hresp, hitems⟩ :=
    (C6_feed_auth "u" 0 ⟨[⟨"g1", "tok1"⟩], []⟩ "tok1").1
      ⟨⟨"g1", "tok1"⟩, by decide, rfl⟩
  refine ⟨by rw [hresp], ?_, ?_⟩
  · have h2 := (C6_feed_auth "u" 0 ⟨[⟨"g1", "tok1"⟩], []⟩ "bad").2.1
      (by decide)
    rw [h2]
  · have h3 := (C6_feed_auth "u" 0 ⟨[⟨"g1", "tok1"⟩], []⟩ "bad").2.2
    rw [h3]

/-- Counterexample for C6 as stated: with the token parameter missing
entirely the endpoint answers 422 (FastAPI validation of the required
`Query(...)` parameter), not the claimed 401. -/
theorem C6_missing_token_cex :
    (rss_feed "u" 0 ⟨[⟨"g1", "tok1"⟩], []⟩ none).status = 422
    ∧ (rss_feed "u" 0 ⟨[⟨"g1", "tok1"⟩], []⟩ none).status ≠ 401 :=
  ⟨rfl, by decide⟩

/-- C7 (amended).  Deterministic entry identifiers: the rendered guids
do not depend on the render time (re-rendering the same stored links
yields identical identifiers); each entry's guid is the deterministic
function `guidOf` of its URL and timestamp only; and two entries whose
(URL, timestamp) pairs differ have distinct guids.  (Global uniqueness
over all entries fails: entries sharing URL and timestamp collide, see
the counterexample.) -/
theorem C7_guid_deterministic (appUrl : String) (now now2 : Nat) (db : DB)
    (chat : String) :
    ((generate_rss appUrl now db chat).items.map RssItem.guid =
      (generate_rss appUrl now2 db chat).items.map RssItem.guid)
    ∧ (∀ item ∈ (generate_rss appUrl now db chat).items,
        item.guid = guidOf item.link item.pubDate)
    ∧ ∀ (i j : Nat) (hi : i < (generate_rss appUrl now db chat).items.length)
        (hj : j < (generate_rss appUrl now db chat).items.length),
        ((generate_rss appUrl now db chat).items.get ⟨i, hi⟩).link ≠
            ((generate_rss appUrl now db chat).items.get ⟨j, hj⟩).link ∨
          ((generate_rss appUrl now db chat).items.get ⟨i, hi⟩).pubDate ≠
            ((generate_rss appUrl now db chat).items.get ⟨j, hj⟩).pubDate →
        ((generate_rss appUrl now db chat).items.get ⟨i, hi⟩).guid ≠
          ((generate_rss appUrl now db chat).items.get ⟨j, hj⟩).guid := by
  have hform : ∀ item ∈ (generate_rss appUrl now db chat).items,
      item.guid = guidOf item.link item.pubDate := by
    intro item hitem
    obtain ⟨ld, -, hitem2⟩ := List.mem_map.mp hitem
    rw [← hitem2]
    rfl
  refine ⟨rfl, hform, ?_⟩
  intro i j hi hj hne heq
  have e1 := hform _ (List.get_mem _ i hi)
  have e2 := hform _ (List.get_mem _ j hj)
  rw [e1, e2] at heq
  obtain ⟨hl, hp⟩ := guidOf_inj heq
  rcases hne with hne | hne
  · exact hne hl
  · exact hne hp

/-- Witness for C7 at a concrete store with two distinct links. -/
theorem C7_guid_deterministic_witness :
    ((generate_rss "u" 0 ⟨[⟨"g", "tok"⟩],
      [⟨"g", "http://a", "T", "D", none, some 1, 5⟩,
       ⟨"g", "http://b", "T2", "D2", none, some 2, 6⟩]⟩ "g").items.get
        ⟨0, by decide⟩).guid ≠
    ((generate_rss "u" 0 ⟨[⟨"g", "tok"⟩],
      [⟨"g", "http://a", "T", "D", none, some 1, 5⟩,
       ⟨"g", "http://b", "T2", "D2", none, some 2, 6⟩]⟩ "g").items.get
        ⟨1, by decide⟩).guid :=
  (C7_guid_deterministic "u" 0 0 ⟨[⟨"g", "tok"⟩],
    [⟨"g", "http://a", "T", "D", none, some 1, 5⟩,
     ⟨"g", "http://b", "T2", "D2", none, some 2, 6⟩]⟩ "g").2.2 0 1
    (by decide) (by decide) (Or.inl (by decide))

/-- Counterexample for C7 as stated: a message repeating the same URL,
ingested when both fetches (which fail) and both clock readings
coincide, stores two links with equal URL and timestamp; the rendered
feed has two entries sharing one guid, so identifiers are not globally
unique across entries. -/
theorem C7_guid_collision_cex :
    ((generate_rss "u" 0 (handle_message ⟨[⟨"g", "tok"⟩], []⟩
        (fun _ => FetchOutcome.failure) (fun _ => 7)
        ⟨some ⟨"g", 1, some "Ann", some "http://a http://a", none⟩, none⟩)
        "g").items.length = 2)
    ∧ ¬ ((generate_rss "u" 0 (handle_message ⟨[⟨"g", "tok"⟩], []⟩
        (fun _ => FetchOutcome.failure) (fun _ => 7)
        ⟨some ⟨"g", 1, some "Ann", some "http://a http://a", none⟩, none⟩)
        "g").items.map RssItem.guid).Nodup := by
  constructor
  · rfl
  · intro h
    have he : ((generate_rss "u" 0 (handle_message ⟨[⟨"g", "tok"⟩], []⟩
        (fun _ => FetchOutcome.failure) (fun _ => 7)
        ⟨some ⟨"g", 1, some "Ann", some "http://a http://a", none⟩, none⟩)
        "g").items.map RssItem.guid) =
        [guidOf "http://a" 7, guidOf "http://a" 7] := rfl
    rw [he] at h
    simp at h


end LinksBot
